import Mathlib

/-!
Verification development for `scripts/cleanup.py` (CReSO project cleanup tool).

The source is shallowly embedded: paths are lists of path segments, the
filesystem is a list of (relative path, entry) pairs rooted at the project
root, and the mutable cleaner state (`self.stats`, the clock consumed by
`datetime.now()`, the lines consumed by `input()`) is threaded explicitly
through a `World` record.  Python exceptions (`OSError`, `PermissionError`,
`ValueError`) are modelled with `Option`/`Except`/error flags.
-/

/-! ## Glob matching (`pathlib.PurePath.match` / `Path.rglob` semantics)

A path segment pattern is matched by `fnmatch`-style rules: `*` matches any
run of characters within the segment, `?` one character, other characters
literally and case-sensitively.  (Character classes `[...]` are unused by
this repository's patterns and are treated as literal characters.)

The recursion is fuelled so that the definitions are structural and reduce
in the kernel; the fuel `p.length + s.length + 1` strictly dominates every
recursive call, each of which shortens the pattern or the string. -/

def segMatchF : Nat → List Char → List Char → Bool
  | 0, _, _ => false
  | _ + 1, [], [] => true
  | _ + 1, [], _ :: _ => false
  | f + 1, c :: ps, [] => c == '*' && segMatchF f ps []
  | f + 1, c :: ps, ch :: cs =>
    if c == '*' then segMatchF f ps (ch :: cs) || segMatchF f (c :: ps) cs
    else if c == '?' then segMatchF f ps cs
    else c == ch && segMatchF f ps cs

def segMatch (p s : List Char) : Bool :=
  segMatchF (p.length + s.length + 1) p s

/-- Matching of a list of pattern segments against a list of path segments,
consuming both lists entirely, as `PurePath.match` compares components:
EVERY pattern segment — `"**"` included — matches exactly one path segment
via `segMatch` (`match` compiles each component with `fnmatch`, so the
recursive wildcard degenerates to a plain `*` confined to one component:
`docs/**/*` does not match `docs/b.md`, nor `docs/a/b/c.md`). -/
def partsMatch : List String → List String → Bool
  | [], [] => true
  | [], _ :: _ => false
  | _ :: _, [] => false
  | pat :: ps, seg :: ss => segMatch pat.data seg.data && partsMatch ps ss

/-- Matching of pattern segments against path segments as the glob
machinery behind `Path.rglob` treats a pattern: there a `"**"` pattern
segment is genuinely recursive and may absorb any number (including zero)
of path segments; every other pattern segment matches exactly one path
segment via `segMatch`.  Fuelled so the definition stays structural and
reduces in the kernel; the fuel `p.length + s.length + 1` strictly
dominates every recursive call. -/
def partsMatchF : Nat → List String → List String → Bool
  | 0, _, _ => false
  | _ + 1, [], [] => true
  | _ + 1, [], _ :: _ => false
  | f + 1, pat :: ps, [] => pat == "**" && partsMatchF f ps []
  | f + 1, pat :: ps, seg :: ss =>
    if pat == "**" then partsMatchF f ps (seg :: ss) || partsMatchF f (pat :: ps) ss
    else segMatch pat.data seg.data && partsMatchF f ps ss

def partsMatchRec (p s : List String) : Bool :=
  partsMatchF (p.length + s.length + 1) p s

/-- Split a pattern string on `'/'` into segments, the way `PurePath`
parses a pattern: empty segments (from doubled or trailing slashes) and
`"."` segments are dropped. -/
def splitSegsAux : List Char → List Char → List String
  | [], cur => [String.mk cur.reverse]
  | '/' :: rest, cur => String.mk cur.reverse :: splitSegsAux rest []
  | c :: rest, cur => splitSegsAux rest (c :: cur)

def parseSegs (pattern : String) : List String :=
  (splitSegsAux pattern.data []).filter (fun s => s != "" && s != ".")

/-- `PurePath.match(pattern)` as called by `is_protected` (line 100):
with a relative pattern, the pattern's segments are matched against the
FINAL segments of the relative path — some suffix of its segment list —
one segment per pattern segment (`partsMatch`), `"**"` not crossing
segment boundaries.  `match('')` raises `ValueError` (empty pattern); no
pattern in this repository is empty, and the empty parse is rendered here
as matching nothing, so the raise is never mistaken for a match. -/
def pathMatch (pattern : String) (parts : List String) : Bool :=
  match parseSegs pattern with
  | [] => false
  | pat => parts.tails.any (fun suf => partsMatch pat suf)

/-- The selection of `Path.rglob(pattern)` (lines 84 and 89): `rglob(p)`
globs `**/p`, so an entry is selected when the pattern's segments match a
trailing run of its relative path's segments, with a `"**"` inside the
pattern being recursive there (`partsMatchRec`).  Like `rglob('')`, the
empty pattern raises and is rendered as selecting nothing. -/
def rglobMatch (pattern : String) (parts : List String) : Bool :=
  match parseSegs pattern with
  | [] => false
  | pat => parts.tails.any (fun suf => partsMatchRec pat suf)

/-- Modelled from the spec's words (§4.1): matching "anchored to the full
relative path (not a substring match)" — the pattern must cover the entire
relative path from the project root.  It reuses the code's segment
matcher, differing only in the anchoring aspect under comparison; used
only to contrast the spec's anchoring with the source's `pathMatch`. -/
def specAnchoredMatch (pattern : String) (parts : List String) : Bool :=
  partsMatch (parseSegs pattern) parts

/-- `pattern.endswith('/')` (line 82). -/
def endsWithSlash (pattern : String) : Bool :=
  match pattern.data.getLast? with
  | some '/' => true
  | _ => false

/-! ## Filesystem model

Entries live at nonempty relative paths under the project root.  A file
carries its byte size together with a flag telling whether `stat()`
succeeds on it (`statOk = false` models an `OSError` raised by `stat`,
e.g. the entry vanished between scan and stat).  Directory entries carry no
size; their size is accumulated from the files below them.  The list order
of `FS` is the traversal order of `Path.rglob`. -/

inductive Entry
  | file (size : Nat) (statOk : Bool)
  | dir
deriving DecidableEq, Repr

abbrev FS := List (List String × Entry)

/-- Boolean test that `a` is a leading run of segments of `b`
(i.e. `a <+: b`). -/
def leads : List String → List String → Bool
  | [], _ => true
  | _ :: _, [] => false
  | a :: as, b :: bs => a == b && leads as bs

def FS.find? (fs : FS) (p : List String) : Option Entry :=
  (List.find? (fun e => e.1 == p) fs).map (·.2)

/-- `path.is_file()`. -/
def isFile (fs : FS) (p : List String) : Bool :=
  match FS.find? fs p with
  | some (.file _ _) => true
  | _ => false

/-- `path.is_dir()`. -/
def isDir (fs : FS) (p : List String) : Bool :=
  match FS.find? fs p with
  | some .dir => true
  | _ => false

/-- The strict descendants of `p`, in traversal order: the items yielded by
`path.rglob('*')` (line 112). -/
def subtreeItems (fs : FS) (p : List String) : List (List String × Entry) :=
  fs.filter (fun e => leads p e.1 && e.1 != p)

/-- `unlink()` on a file path removes that entry. -/
def removeEntry (fs : FS) (p : List String) : FS :=
  fs.filter (fun e => e.1 != p)

/-- `shutil.rmtree` removes the directory entry and its whole subtree. -/
def removeTree (fs : FS) (p : List String) : FS :=
  fs.filter (fun e => !leads p e.1)

/-- Python exceptions relevant to the embedded code. -/
inductive PyErr
  | osError
deriving DecidableEq, Repr

/-! ## Cleaner state

`Stats` is `self.stats` (line 24).  `World` gathers the pieces of ambient
state the Python code touches: the filesystem under the project root, the
stream of values successive `datetime.now().strftime(...)` calls produce,
the stream of lines successive `input()` calls return, the set of paths on
which `unlink`/`rmtree` raises `OSError` (modelling filesystem refusal),
the configured backup directory name (`self.config["backup_dir"]`), and
the statistics accumulator. -/

structure Stats where
  files_deleted : Nat
  dirs_deleted : Nat
  space_freed : Nat
deriving DecidableEq, Repr

structure World where
  fs : FS
  clock : List String
  inputs : List String
  failDelete : List (List String)
  cfgBackupDir : String
  stats : Stats
deriving DecidableEq, Repr

/-! ## The cleaner's operations (CReSOCleaner) -/

/-- `is_protected` restricted to a path already made relative to the
project root (the only way `find_files` reaches it, since `rglob` yields
descendants of the root): true iff the relative path matches at least one
protected pattern (lines 99-103). -/
def is_protected_rel (prot : List String) (rel : List String) : Bool :=
  prot.any (fun pattern => pathMatch pattern rel)

/-- `Path.relative_to(root)`: strips the root prefix, or raises
`ValueError` (modelled as `none`) when the path does not lie under the
root (line 97). -/
def relative_to (root p : List String) : Option (List String) :=
  if leads root p then some (p.drop root.length) else none

/-- `is_protected(path)` on an arbitrary (absolute) path, lines 95-103:
`path.relative_to(self.project_root)` may raise `ValueError` (`none`);
otherwise the relative path is tested against every protected pattern. -/
def is_protected (root : List String) (prot : List String) (p : List String) :
    Option Bool :=
  (relative_to root p).map (fun rel => is_protected_rel prot rel)

/-- Python string `<`: lexicographic comparison by code point. -/
def strLt : List Char → List Char → Bool
  | [], [] => false
  | [], _ :: _ => true
  | _ :: _, [] => false
  | a :: as, b :: bs => if a == b then strLt as bs else decide (a.toNat < b.toNat)

/-- Path ordering used by `sorted(...)` on `Path` objects: lexicographic
comparison of the segment tuples. -/
def pathLe : List String → List String → Bool
  | [], _ => true
  | _ :: _, [] => false
  | a :: as, b :: bs => if a == b then pathLe as bs else strLt a.data b.data

/-- `sorted(...)` (line 93), rendered as a structural insertion sort: on
the deduplicated candidate set `pathLe` is a total order with no distinct
tie, so every correct sort produces this result. -/
def insertSorted (p : List String) : List (List String) → List (List String)
  | [] => [p]
  | q :: rest => if pathLe p q then p :: q :: rest else q :: insertSorted p rest

def sortPaths : List (List String) → List (List String)
  | [] => []
  | p :: rest => insertSorted p (sortPaths rest)

/-- `find_files(patterns)`, lines 77-93.  For each pattern: a trailing `/`
marks a directory pattern, whose matches are the directories found by
`rglob(pattern.rstrip('/'))`; otherwise the files found by
`rglob(pattern)`; protected paths are dropped.  (Stripping trailing
slashes only removes empty pattern segments, which `parseSegs` already
drops, so matching uses the pattern string unchanged.)  The accumulated
candidates are deduplicated (`set`) and sorted (`sorted`). -/
def find_files (fs : FS) (prot : List String) (patterns : List String) :
    List (List String) :=
  let found := patterns.flatMap (fun pattern =>
    if endsWithSlash pattern then
      (fs.map (·.1)).filter (fun p =>
        isDir fs p && rglobMatch pattern p && !is_protected_rel prot p)
    else
      (fs.map (·.1)).filter (fun p =>
        isFile fs p && rglobMatch pattern p && !is_protected_rel prot p))
  sortPaths found.dedup

/-- The loop body of the directory branch of `get_file_size`
(lines 110-117): accumulate the sizes of the files below the directory in
traversal order; an `OSError` from `stat()` on an item (modelled by
`statOk = false`) is caught by the surrounding `try`/`except`, which
abandons the loop and keeps the partial total accumulated so far. -/
def dirSizeLoop : List (List String × Entry) → Nat → Nat
  | [], acc => acc
  | (_, .dir) :: rest, acc => dirSizeLoop rest acc
  | (_, .file sz ok) :: rest, acc => if ok then dirSizeLoop rest (acc + sz) else acc

/-- `get_file_size(path)`, lines 105-118: a file's `stat().st_size` (which
may raise), a directory's accumulated subtree size, and 0 for a
non-existent path. -/
def get_file_size (fs : FS) (p : List String) : Except PyErr Nat :=
  match FS.find? fs p with
  | some (.file sz ok) => if ok then .ok sz else .error .osError
  | some .dir => .ok (dirSizeLoop (subtreeItems fs p) 0)
  | none => .ok 0

/-- `sum(self.get_file_size(f) for f in files_to_clean)` (line 163): the
first `OSError` raised by a `get_file_size` call propagates. -/
def sumSizes (fs : FS) (files : List (List String)) : Except PyErr Nat :=
  files.foldlM (fun acc f => (get_file_size fs f).map (fun s => acc + s)) 0

/-- `backup_file(file_path, backup_dir)`, lines 128-138: copy the entry —
`shutil.copy2` for a file, `shutil.copytree(..., dirs_exist_ok=True)` for
a directory and its subtree — to `backup_dir / relative_path`.  The
`mkdir(parents=True, exist_ok=True)` calls need no representation because
this FS model does not require parent entries.  `backupDirSegs` is the
backup directory expressed relative to the project root (it lives under
the root: line 144). -/
def backup_file (fs : FS) (path : List String) (backupDirSegs : List String) : FS :=
  let copies := (fs.filter (fun e => leads path e.1)).map
    (fun e => (backupDirSegs ++ e.1, e.2))
  fs ++ copies

/-- The optional backup step of `delete_path` (lines 142-145): with
`backup` set, the timestamp is taken here, per call, consuming one tick of
the clock, and the entry is copied under
`<backup_dir>/<timestamp>/<relative path>`. -/
def backupStep (w : World) (path : List String) (backup : Bool) : World :=
  if backup then
    let timestamp := w.clock.headD ""
    { w with clock := w.clock.tail,
             fs := backup_file w.fs path [w.cfgBackupDir, timestamp] }
  else w

/-- The deletion half of `delete_path` (lines 147-156): re-measure the
size, unlink a file / rmtree a directory with the matching counter
bumped, and add the just-measured size to `space_freed`. -/
def deleteCore (w : World) (path : List String) : World × Option PyErr :=
  match get_file_size w.fs path with
  | .error e => (w, some e)
  | .ok size =>
    if isFile w.fs path then
      if path ∈ w.failDelete then (w, some .osError)
      else
        ({ w with fs := removeEntry w.fs path,
                  stats := { w.stats with
                    files_deleted := w.stats.files_deleted + 1,
                    space_freed := w.stats.space_freed + size } }, none)
    else if isDir w.fs path then
      if path ∈ w.failDelete then (w, some .osError)
      else
        ({ w with fs := removeTree w.fs path,
                  stats := { w.stats with
                    dirs_deleted := w.stats.dirs_deleted + 1,
                    space_freed := w.stats.space_freed + size } }, none)
    else
      ({ w with stats := { w.stats with
                  space_freed := w.stats.space_freed + size } }, none)

/-- `delete_path(path, backup)`, lines 140-156: the optional backup step
followed by the measured deletion.  The result pairs the world as mutated
so far with the `OSError` raised, if any (failed stat, or a path in
`failDelete`). -/
def delete_path (w : World) (path : List String) (backup : Bool) :
    World × Option PyErr :=
  deleteCore (backupStep w path backup) path

/-- The deletion loop of `clean_category` (lines 190-196): each entry is
handed to `delete_path`; an `OSError`/`PermissionError` is caught, a
warning printed, and the loop continues with the world as mutated so far. -/
def runDeletes (w : World) (files : List (List String)) (backup : Bool) : World :=
  files.foldl (fun w f => (delete_path w f backup).1) w

/-- `response.lower().strip()` (line 184).  Python's `strip()` removes
ASCII whitespace (the inputs modelled here contain none beyond these). -/
def pyIsSpace (c : Char) : Bool :=
  c == ' ' || c == '\t' || c == '\n' || c == '\r'

def pyStrip (s : String) : String :=
  String.mk (((s.data.dropWhile pyIsSpace).reverse.dropWhile pyIsSpace).reverse)

def pyLower (s : String) : String :=
  String.mk (s.data.map Char.toLower)

/-- `clean_category(category, patterns, dry_run, backup, interactive)`,
lines 158-198.  Returns the new world together with the Python return
value `(files_to_clean, size)`.  The sizes printed for the first ten
entries (lines 171-174) are pure re-reads of `get_file_size` on the
unchanged state; they raise exactly when the total on line 163 raises, so
the single `sumSizes` call models both. -/
def clean_category (w : World) (prot : List String) (patterns : List String)
    (dry_run backup interactive : Bool) :
    Except PyErr (World × List (List String) × Nat) :=
  let files := find_files w.fs prot patterns
  match sumSizes w.fs files with
  | .error e => .error e
  | .ok total =>
    if files.isEmpty then .ok (w, files, total)
    else if dry_run then .ok (w, files, total)
    else if interactive then
      let response := pyStrip (pyLower (w.inputs.headD ""))
      let w := { w with inputs := w.inputs.tail }
      if response == "s" then .ok (w, files, 0)
      else if response != "y" then .ok (w, files, 0)
      else .ok (runDeletes w files backup, files, total)
    else .ok (runDeletes w files backup, files, total)

/-- The body of the category loop of `run_cleanup` (lines 215-222): `if
category in self.config["cleanup_patterns"]` guards the whole body, so an
unknown category name leaves the accumulated `(world, total_files_found,
total_size_found)` untouched. -/
def cleanupStep (prot : List String) (cleanup_patterns : List (String × List String))
    (dry_run backup interactive : Bool) (acc : World × Nat × Nat) (cat : String) :
    Except PyErr (World × Nat × Nat) :=
  match cleanup_patterns.lookup cat with
  | some patterns =>
    (clean_category acc.1 prot patterns dry_run backup interactive).map
      (fun r => (r.1, acc.2.1 + r.2.1.length, acc.2.2 + r.2.2))
  | none => .ok acc

/-- `run_cleanup(categories, ...)`, lines 200-231: each requested category
present in `cleanup_patterns` is cleaned and its result accumulated into
`(total_files_found, total_size_found)`. -/
def run_cleanup (w : World) (prot : List String)
    (cleanup_patterns : List (String × List String)) (categories : List String)
    (dry_run backup interactive : Bool) :
    Except PyErr (World × Nat × Nat) :=
  categories.foldlM (cleanupStep prot cleanup_patterns dry_run backup interactive)
    (w, 0, 0)

/-- The category validation in `main` (lines 272-278): all requested
categories must be keys of `cleanup_patterns`, i.e. the set difference
`set(categories) - available_categories` must be empty. -/
def validateCategories (cleanup_patterns : List (String × List String))
    (categories : List String) : Bool :=
  categories.all (fun c => (cleanup_patterns.lookup c).isSome)

deriving instance DecidableEq for Except

inductive MainOutcome
  | usageError
  | ran (r : Except PyErr (World × Nat × Nat))
deriving DecidableEq, Repr

/-- The tail of `main` (lines 270-285): default the category list to all
configured categories when empty, abort with `sys.exit(1)` on unknown
names BEFORE any cleanup runs, otherwise delegate to `run_cleanup`. -/
def mainRun (w : World) (prot : List String)
    (cleanup_patterns : List (String × List String)) (argCategories : List String)
    (dry_run backup no_interactive : Bool) : MainOutcome :=
  let categories :=
    if argCategories.isEmpty then cleanup_patterns.map (·.1) else argCategories
  if !validateCategories cleanup_patterns categories then .usageError
  else .ran (run_cleanup w prot cleanup_patterns categories dry_run backup
    (!no_interactive))

section Lemmas

theorem leads_iff (a b : List String) : leads a b = true ↔ a <+: b := by
  induction a generalizing b with
  | nil => simp [leads]
  | cons x xs ih =>
    cases b with
    | nil => simp [leads]
    | cons y ys =>
      simp [leads, ih, List.cons_prefix_cons]

theorem tails_any_iff {α : Type} (p : List α → Bool) (l : List α) :
    l.tails.any p = true ↔ ∃ n, n ≤ l.length ∧ p (l.drop n) = true := by
  induction l with
  | nil =>
    simp [List.tails]
  | cons a l ih =>
    rw [List.tails_cons]
    simp only [List.any_cons, Bool.or_eq_true, ih]
    constructor
    · rintro (h | ⟨n, hn, hp⟩)
      · exact ⟨0, by omega, h⟩
      · exact ⟨n + 1, by simpa using hn, by simpa using hp⟩
    · rintro ⟨n, hn, hp⟩
      cases n with
      | zero => exact Or.inl hp
      | succ m => exact Or.inr ⟨m, by simpa using hn, by simpa using hp⟩

theorem mem_insertSorted (a p : List String) (l : List (List String)) :
    a ∈ insertSorted p l ↔ a = p ∨ a ∈ l := by
  induction l with
  | nil => simp [insertSorted]
  | cons q rest ih =>
    by_cases h : pathLe p q = true
    · simp [insertSorted, h]
    · simp only [insertSorted, h, if_neg, Bool.not_eq_true] at *
      simp [List.mem_cons, ih]
      tauto

theorem mem_sortPaths (a : List String) (l : List (List String)) :
    a ∈ sortPaths l ↔ a ∈ l := by
  induction l with
  | nil => simp [sortPaths]
  | cons p rest ih => simp [sortPaths, mem_insertSorted, ih]

end Lemmas

/-! ## C1: protected paths never appear in scan results -/

/-- C1. If a relative path matches at least one protected pattern, then
`is_protected` reports it protected, and the path never appears in the
result of `find_files`, whatever category pattern list is scanned. -/
theorem protected_never_matched (fs : FS) (prot patterns : List String)
    (rel : List String) (h : ∃ p ∈ prot, pathMatch p rel = true) :
    is_protected_rel prot rel = true ∧ rel ∉ find_files fs prot patterns := by
  have hp : is_protected_rel prot rel = true := by
    simpa [is_protected_rel, List.any_eq_true] using h
  refine ⟨hp, fun hmem => ?_⟩
  simp only [find_files, mem_sortPaths, List.mem_dedup, List.mem_flatMap] at hmem
  obtain ⟨pattern, -, hsel⟩ := hmem
  by_cases hd : endsWithSlash pattern = true <;>
    simp only [hd, if_true, if_false, Bool.not_eq_true, List.mem_filter,
      Bool.and_eq_true, Bool.not_eq_true', if_neg, Bool.false_eq_true,
      not_false_eq_true] at hsel <;>
    exact absurd hp (by simp [hsel.2.2])

/-- Witness for C1 on concrete data: `readme.md` matches the protected
pattern `*.md`, is reported protected, and is absent from a scan for
`*.md` even though the category pattern selects it. -/
theorem protected_never_matched_witness :
    is_protected_rel ["*.md"] ["readme.md"] = true ∧
      ["readme.md"] ∉ find_files [(["readme.md"], .file 9 true)] ["*.md"] ["*.md"] :=
  protected_never_matched [(["readme.md"], .file 9 true)] ["*.md"] ["*.md"]
    ["readme.md"] (by decide)

/-! ## C2: dry-run mutates nothing -/

/-- C2. A `clean_category` call in dry-run mode returns the world
unchanged: the filesystem still holds every entry it held before (so every
matched entry is still on disk) and the statistics accumulator is exactly
what it was (all zeros when it started at all zeros). -/
theorem dry_run_no_mutation (w : World) (prot patterns : List String)
    (backup interactive : Bool) (w' : World) (files : List (List String)) (sz : Nat)
    (h : clean_category w prot patterns true backup interactive = .ok (w', files, sz)) :
    w' = w ∧ w'.fs = w.fs ∧ w'.stats = w.stats := by
  cases htot : sumSizes w.fs (find_files w.fs prot patterns) with
  | error e => simp [clean_category, htot] at h
  | ok t =>
    simp only [clean_category, htot] at h
    split at h
    · simp only [Except.ok.injEq, Prod.mk.injEq] at h
      first
      | exact ⟨rfl, rfl, rfl⟩
      | · obtain ⟨h1, -, -⟩ := h
          subst h1
          exact ⟨rfl, rfl, rfl⟩
    · simp only [if_true, Except.ok.injEq, Prod.mk.injEq] at h
      first
      | exact ⟨rfl, rfl, rfl⟩
      | · obtain ⟨h1, -, -⟩ := h
          subst h1
          exact ⟨rfl, rfl, rfl⟩

/-- Witness for C2: a dry run over a one-file filesystem returns the world
unchanged. -/
theorem dry_run_no_mutation_witness :
    let w : World :=
      { fs := [(["a.log"], .file 5 true)], clock := [], inputs := [],
        failDelete := [], cfgBackupDir := "cleanup_backups", stats := ⟨0, 0, 0⟩ }
    w = w ∧ w.fs = w.fs ∧ w.stats = w.stats :=
  dry_run_no_mutation
    { fs := [(["a.log"], .file 5 true)], clock := [], inputs := [],
      failDelete := [], cfgBackupDir := "cleanup_backups", stats := ⟨0, 0, 0⟩ }
    [] ["*.log"] false true _ [["a.log"]] 5 (by decide)

/-! ## C4: the returned size is NOT always the snapshot

The claim fails: on an interactive skip (`'s'`) or any non-affirmative
answer, `clean_category` returns size 0 (lines 185-188), not the snapshot
total. -/

def w4cex : World :=
  { fs := [(["a.log"], .file 5 true)], clock := [], inputs := ["s"],
    failDelete := [], cfgBackupDir := "cleanup_backups", stats := ⟨0, 0, 0⟩ }

/-- C4 counterexample.  One 5-byte matched file, interactive mode, the
user answers `s` (skip): the pre-deletion snapshot of the matched entries
is 5 bytes, but the size returned by `clean_category` is 0, so the return
value does not reflect the snapshot for the skip decision. -/
theorem plan_size_skip_cex :
    (clean_category w4cex [] ["*.log"] false false true).map (fun r => r.2.2) =
        .ok 0 ∧
      sumSizes w4cex.fs (find_files w4cex.fs [] ["*.log"]) = .ok 5 ∧ (0 : Nat) ≠ 5 := by
  refine ⟨by decide, by decide, by decide⟩

/-- C4 amended.  The size returned by `clean_category` equals the
pre-deletion snapshot total of the matched entries whenever the category
proceeds or is merely previewed — dry-run mode, non-interactive mode, or
an interactive run whose answer is the explicit affirmative `y`; on an
interactive skip or any other non-affirmative answer the returned size is
0 instead. -/
theorem plan_size_amended (w : World) (prot patterns : List String)
    (dry_run backup interactive : Bool) (w' : World) (files : List (List String))
    (sz : Nat)
    (hmode : dry_run = true ∨ interactive = false ∨
      pyStrip (pyLower (w.inputs.headD "")) = "y")
    (h : clean_category w prot patterns dry_run backup interactive =
      .ok (w', files, sz)) :
    sumSizes w.fs files = .ok sz := by
  cases htot : sumSizes w.fs (find_files w.fs prot patterns) with
  | error e => simp [clean_category, htot, bind, Except.bind] at h
  | ok t =>
    simp only [clean_category, htot] at h
    split at h
    · simp only [Except.ok.injEq, Prod.mk.injEq] at h
      first
      | exact htot
      | · obtain ⟨-, hf, hs⟩ := h
          rw [← hf, ← hs]
          exact htot
    · split at h
      · simp only [Except.ok.injEq, Prod.mk.injEq] at h
        first
        | exact htot
        | · obtain ⟨-, hf, hs⟩ := h
            rw [← hf, ← hs]
            exact htot
      · rename_i hd
        split at h
        · rename_i hi
          rcases hmode with hm | hm | hy
          · exact absurd hm hd
          · rw [hm] at hi
            exact absurd hi (by decide)
          · rw [hy] at h
            rw [if_neg (by decide)] at h
            rw [if_neg (by decide)] at h
            simp only [Except.ok.injEq, Prod.mk.injEq] at h
            first
            | exact htot
            | · obtain ⟨-, hf, hs⟩ := h
                rw [← hf, ← hs]
                exact htot
        · simp only [Except.ok.injEq, Prod.mk.injEq] at h
          first
          | exact htot
          | · obtain ⟨-, hf, hs⟩ := h
              rw [← hf, ← hs]
              exact htot

/-- Witness for C4 amended: the non-interactive case on concrete data. -/
theorem plan_size_amended_witness :
    sumSizes w4cex.fs [["a.log"]] = .ok 5 :=
  plan_size_amended w4cex [] ["*.log"] false false false
    (runDeletes { w4cex with inputs := ["s"] } [["a.log"]] false) [["a.log"]] 5
    (Or.inr (Or.inl rfl)) (by decide)

/-! ## C5: matching is suffix-anchored, not full-path-anchored, and the
protection check's `**` does not cross segment boundaries

`PurePath.match` with a relative pattern matches from the right: the
pattern's segments need only cover the FINAL segments of the relative
path, one path segment per pattern segment — `match` treats `**` as a
plain `*` confined to one component.  So the spec's "anchored to the full
relative path" is wrong, and so is its "`**` additionally crosses segment
boundaries" as far as the protection check is concerned (only the `rglob`
scan gives `**` recursive meaning). -/

theorem list_any_congr {α : Type} (l : List α) (p q : α → Bool)
    (h : ∀ a ∈ l, p a = q a) : l.any p = l.any q := by
  induction l with
  | nil => rfl
  | cons a rest ih =>
    rw [List.any_cons, List.any_cons, h a (List.mem_cons_self a rest),
      ih (fun b hb => h b (List.mem_cons_of_mem a hb))]

theorem partsMatchF_no_recursive (f : Nat) :
    ∀ (pat s : List String), pat.length + s.length < f → "**" ∉ pat →
      partsMatchF f pat s = partsMatch pat s := by
  induction f with
  | zero =>
    intro pat s hf _
    omega
  | succ f ih =>
    intro pat s hf hns
    cases pat with
    | nil => cases s <;> rfl
    | cons p ps =>
      have hp : (p == "**") = false := by
        rw [beq_eq_false_iff_ne]
        intro hEq
        exact hns (hEq ▸ List.mem_cons_self p ps)
      cases s with
      | nil => simp [partsMatchF, partsMatch, hp]
      | cons x ss =>
        simp only [partsMatchF, partsMatch, hp, Bool.false_eq_true, if_false]
        rw [ih ps ss (by simp only [List.length_cons] at hf; omega)
          (fun h => hns (List.mem_cons_of_mem p h))]

/-- C5 counterexample.  The one-segment pattern `*.md` matches the
two-segment relative path `docs/readme.md` under the code's matcher (and
hence protects it, as the default `*.md` protected pattern does), even
though the pattern does not cover the entire relative path: the
full-path-anchored matcher of the spec's words rejects it.  Moreover the
protection check gives `**` no recursive power: the default protected
pattern `docs/**/*` fails on `docs/a/b/c.md`, which any
boundary-crossing `**` would accept, and matches `docs/a/b.md` with `**`
covering exactly the one segment `a`. -/
theorem anchoring_cex :
    pathMatch "*.md" ["docs", "readme.md"] = true ∧
      specAnchoredMatch "*.md" ["docs", "readme.md"] = false ∧
      is_protected_rel ["*.md"] ["docs", "readme.md"] = true ∧
      pathMatch "docs/**/*" ["docs", "a", "b", "c.md"] = false ∧
      pathMatch "docs/**/*" ["docs", "a", "b.md"] = true := by
  refine ⟨by decide, by decide, by decide, by decide, by decide⟩

/-- C5 amended.  Matching is anchored at segment boundaries and at the
END of the relative path, not to the whole of it.  The protection check
(`PurePath.match`, line 100) matches a nonempty pattern exactly when its
segments match the final segments of the relative path one segment
apiece; a single pattern segment — `*` and `**` alike — never covers more
than one path segment there, and never matches a substring within a
segment.  The category scan (`rglob`) agrees with that right-anchored
semantics on every `**`-free pattern (only there does `**` additionally
cross segment boundaries). -/
theorem anchoring_amended (pattern : String) (parts : List String) :
    (pathMatch pattern parts = true ↔
      parseSegs pattern ≠ [] ∧
        ∃ n, n ≤ parts.length ∧
          partsMatch (parseSegs pattern) (parts.drop n) = true) ∧
    (∀ (s a b : String) (rest : List String),
      partsMatch [s] (a :: b :: rest) = false) ∧
    ("**" ∉ parseSegs pattern → rglobMatch pattern parts = pathMatch pattern parts) := by
  refine ⟨?_, ?_, ?_⟩
  · cases hp : parseSegs pattern with
    | nil =>
      unfold pathMatch
      rw [hp]
      simp
    | cons q qs =>
      unfold pathMatch
      rw [hp]
      rw [tails_any_iff]
      simp
  · intro s a b rest
    simp [partsMatch]
  · intro hns
    unfold rglobMatch pathMatch
    cases hp : parseSegs pattern with
    | nil => rfl
    | cons q qs =>
      rw [hp] at hns
      apply list_any_congr
      intro suf _
      exact partsMatchF_no_recursive _ (q :: qs) suf (Nat.lt_succ_self _) hns

/-- Witness for C5 amended at concrete inputs: `*.md` matches
`docs/readme.md` by covering its one-segment suffix; a `**` pattern
segment cannot span two path segments under the protection matcher; and
scan and protection matchers agree on the `**`-free pattern `*.pyc`. -/
theorem anchoring_amended_witness :
    (parseSegs "*.md" ≠ [] ∧
      ∃ n, n ≤ 2 ∧ partsMatch (parseSegs "*.md") (["docs", "readme.md"].drop n) = true) ∧
      partsMatch ["**"] ["docs", "a", "b"] = false ∧
      rglobMatch "*.pyc" ["build", "a.pyc"] = pathMatch "*.pyc" ["build", "a.pyc"] :=
  ⟨(anchoring_amended "*.md" ["docs", "readme.md"]).1.mp (by decide),
   (anchoring_amended "x" []).2.1 "**" "docs" "a" ["b"],
   (anchoring_amended "*.pyc" ["build", "a.pyc"]).2.2 (by decide)⟩

/-! ## C8: directory sizing aborts at the first unreadable entry

The `try` in `get_file_size` (lines 111-116) wraps the WHOLE loop, so an
`OSError` raised by `stat()` on one item abandons the remaining items and
returns the partial total, instead of letting only the unreadable item
contribute 0. -/

/-- True when `stat()` raises on this entry. -/
def statFails (e : List String × Entry) : Bool :=
  match e.2 with
  | .file _ ok => !ok
  | .dir => false

/-- Modelled from the spec (§4.3): the directory size in which every
sub-entry unreadable due to an OS error contributes 0 WITHOUT aborting the
accumulation over the remaining sub-entries.  Used to compare the spec's
accumulation against the source's `dirSizeLoop`. -/
def dirSizeSpec : List (List String × Entry) → Nat
  | [] => 0
  | (_, .dir) :: rest => dirSizeSpec rest
  | (_, .file sz ok) :: rest => (if ok then sz else 0) + dirSizeSpec rest

theorem dirSizeLoop_no_fail (l : List (List String × Entry)) (acc : Nat)
    (h : ∀ e ∈ l, statFails e = false) :
    dirSizeLoop l acc = acc + dirSizeSpec l := by
  induction l generalizing acc with
  | nil => simp [dirSizeLoop, dirSizeSpec]
  | cons e rest ih =>
    obtain ⟨q, ent⟩ := e
    cases ent with
    | dir =>
      simp only [dirSizeLoop, dirSizeSpec]
      exact ih acc (fun e he => h e (List.mem_cons_of_mem _ he))
    | file n ok =>
      have hok : ok = true := by
        have := h (q, .file n ok) (List.mem_cons_self _ _)
        simpa [statFails] using this
      subst hok
      simp only [dirSizeLoop, dirSizeSpec, if_true]
      rw [ih (acc + n) (fun e he => h e (List.mem_cons_of_mem _ he))]
      omega

theorem dirSizeLoop_abort (xs ys : List (List String × Entry))
    (q : List String) (n : Nat) (acc : Nat)
    (h : ∀ e ∈ xs, statFails e = false) :
    dirSizeLoop (xs ++ (q, Entry.file n false) :: ys) acc = acc + dirSizeSpec xs := by
  induction xs generalizing acc with
  | nil => simp [dirSizeLoop, dirSizeSpec]
  | cons e rest ih =>
    obtain ⟨r, ent⟩ := e
    cases ent with
    | dir =>
      simp only [List.cons_append, dirSizeLoop, dirSizeSpec]
      exact ih acc (fun e he => h e (List.mem_cons_of_mem _ he))
    | file m ok =>
      have hok : ok = true := by
        have := h (r, .file m ok) (List.mem_cons_self _ _)
        simpa [statFails] using this
      subst hok
      simp only [List.cons_append, dirSizeLoop, dirSizeSpec, if_true, List.append_eq]
      rw [ih (acc + m) (fun e he => h e (List.mem_cons_of_mem _ he))]
      omega

def fs8cex : FS :=
  [(["d"], .dir), (["d", "a"], .file 10 true), (["d", "b"], .file 7 false),
   (["d", "c"], .file 5 true)]

/-- C8 counterexample.  A directory whose subtree holds `a` (10 bytes,
readable), `b` (unreadable `stat`), `c` (5 bytes, readable) in traversal
order: the code returns 10 — the loop stops at `b`, dropping the readable
`c` — while the spec's accumulation, where only the unreadable entry
contributes 0, gives 15. -/
theorem size_abort_cex :
    get_file_size fs8cex ["d"] = .ok 10 ∧
      dirSizeSpec (subtreeItems fs8cex ["d"]) = 15 ∧ (10 : Nat) ≠ 15 := by
  refine ⟨by decide, by decide, by decide⟩

/-- C8 amended.  `get_file_size` on a non-existent path returns 0, and on
a directory it accumulates file sizes in traversal order only UP TO the
first sub-entry whose `stat` fails: such an error terminates the
accumulation and the partial sum is returned (so the unreadable entry and
every entry after it contribute 0); when no sub-entry is unreadable the
result is the full recursive sum. -/
theorem size_abort_amended (fs : FS) (p : List String) :
    (FS.find? fs p = none → get_file_size fs p = .ok 0) ∧
    (FS.find? fs p = some .dir →
      (∀ e ∈ subtreeItems fs p, statFails e = false) →
      get_file_size fs p = .ok (dirSizeSpec (subtreeItems fs p))) ∧
    (∀ xs q n ys, FS.find? fs p = some .dir →
      subtreeItems fs p = xs ++ (q, Entry.file n false) :: ys →
      (∀ e ∈ xs, statFails e = false) →
      get_file_size fs p = .ok (dirSizeSpec xs)) := by
  refine ⟨fun hn => ?_, fun hd hclean => ?_, fun xs q n ys hd hsplit hclean => ?_⟩
  · simp [get_file_size, hn]
  · simp only [get_file_size, hd]
    rw [dirSizeLoop_no_fail _ 0 hclean]
    simp
  · simp only [get_file_size, hd, hsplit]
    rw [dirSizeLoop_abort xs ys q n 0 hclean]
    simp

/-- Witness for C8 amended on the counterexample filesystem: the readable
prefix before the unreadable entry sums to 10, and a missing path sizes
to 0. -/
theorem size_abort_amended_witness :
    get_file_size fs8cex ["d"] = .ok (dirSizeSpec [(["d", "a"], Entry.file 10 true)]) ∧
      get_file_size fs8cex ["missing"] = .ok 0 :=
  ⟨(size_abort_amended fs8cex ["d"]).2.2 [(["d", "a"], .file 10 true)] ["d", "b"] 7
      [(["d", "c"], .file 5 true)] (by decide) (by decide) (by decide),
   (size_abort_amended fs8cex ["missing"]).1 (by decide)⟩

/-! ## C9: `is_protected` raises on a path outside the project root

`path.relative_to(self.project_root)` (line 97) raises `ValueError` for a
path that is not under the root, and `is_protected` does not catch it. -/

/-- C9 counterexample.  For the out-of-root absolute path `other/x.md`
(root `proj`), `is_protected` produces no Boolean at all: `relative_to`
raises `ValueError` (modelled as `none`) and the exception propagates,
contradicting "isProtected returns without raising". -/
theorem outside_root_cex :
    is_protected ["proj"] ["*.md"] ["other", "x.md"] = none ∧
      relative_to ["proj"] ["other", "x.md"] = none := by
  refine ⟨by decide, by decide⟩

/-- C9 amended.  A path outside ProjectRoot never yields a protection
verdict from `is_protected`: the `relative_to` step fails and the
`ValueError` propagates out of `is_protected` (it is NOT handled totally);
for a path under the root, `is_protected` returns the protection verdict
of the relative path — out-of-root paths are never matched only because
the Scanner hands `is_protected` exclusively descendants of the root. -/
theorem outside_root_amended (root prot p : List String) :
    (¬ root <+: p → is_protected root prot p = none) ∧
    (∀ rel, p = root ++ rel →
      is_protected root prot p = some (is_protected_rel prot rel)) := by
  constructor
  · intro h
    have hl : leads root p = false := by
      rw [← Bool.not_eq_true, leads_iff]
      exact h
    simp [is_protected, relative_to, hl]
  · intro rel hrel
    subst hrel
    have hl : leads root (root ++ rel) = true := by
      rw [leads_iff]
      exact List.prefix_append root rel
    simp [is_protected, relative_to, hl, List.drop_left]

/-- Witness for C9 amended: concrete out-of-root and in-root paths. -/
theorem outside_root_amended_witness :
    is_protected ["proj"] ["*.md"] ["other", "x.md"] = none ∧
      is_protected ["proj"] ["*.md"] ["proj", "docs", "a.md"] =
        some (is_protected_rel ["*.md"] ["docs", "a.md"]) :=
  ⟨(outside_root_amended ["proj"] ["*.md"] ["other", "x.md"]).1 (by decide),
   (outside_root_amended ["proj"] ["*.md"] ["proj", "docs", "a.md"]).2
      ["docs", "a.md"] (by decide)⟩

/-! ## C6: the backup timestamp is taken per entry, not per batch

`delete_path` calls `datetime.now().strftime("%Y%m%d_%H%M%S")` on EVERY
invocation (line 143), so a batch whose deletions straddle a second
boundary scatters its backups over several backup roots, against the
spec's one-root-per-batch intent. -/

def w6cb : World :=
  { fs := [(["a.log"], .file 3 true), (["b.log"], .file 4 true)],
    clock := ["20250101_000000", "20250101_000001"], inputs := [], failDelete := [],
    cfgBackupDir := "cleanup_backups", stats := ⟨0, 0, 0⟩ }

/-- C6 evaluated at the failing input.  One `clean_category` batch deletes
`a.log` and `b.log` with backup on while the clock ticks from
`20250101_000000` to `20250101_000001` between the two `delete_path`
calls: each entry is indeed copied to
`<backupDirName>/<timestamp>/<relative path>` before its original is
removed, but the two entries of the SAME batch land under two DIFFERENT
timestamp roots, because the timestamp is captured per `delete_path` call
rather than once per `clean_category` invocation. -/
theorem backup_timestamp_per_entry :
    (clean_category w6cb [] ["*.log"] false true false).map
        (fun r => (r.1.fs, r.1.stats)) =
      .ok ([(["cleanup_backups", "20250101_000000", "a.log"], .file 3 true),
            (["cleanup_backups", "20250101_000001", "b.log"], .file 4 true)],
           ⟨2, 0, 7⟩) := by
  decide

/-! ## C10: `run_cleanup` silently skips unknown categories -/

theorem foldlM_cleanupStep_filter (prot : List String)
    (cps : List (String × List String)) (dry_run backup interactive : Bool)
    (cats : List String) :
    ∀ acc : World × Nat × Nat,
      cats.foldlM (cleanupStep prot cps dry_run backup interactive) acc =
        (cats.filter (fun c => (cps.lookup c).isSome)).foldlM
          (cleanupStep prot cps dry_run backup interactive) acc := by
  induction cats with
  | nil => intro acc; rfl
  | cons c rest ih =>
    intro acc
    cases hl : cps.lookup c with
    | none =>
      rw [List.foldlM_cons, List.filter_cons_of_neg (by simp [hl])]
      simp only [cleanupStep, hl]
      simpa [bind, Except.bind] using ih acc
    | some pats =>
      rw [List.foldlM_cons, List.filter_cons_of_pos (by simp [hl]),
        List.foldlM_cons]
      simp only [cleanupStep, hl]
      cases hcc : clean_category acc.1 prot pats dry_run backup interactive with
      | error e => simp [hcc, Except.map, bind, Except.bind]
      | ok r => simpa [hcc, Except.map, bind, Except.bind] using ih _

/-- C10.  `run_cleanup` itself validates nothing: for any category list it
behaves exactly as if the names absent from `cleanup_patterns` had not
been passed at all — no exception, no filesystem mutation, no change to
`CleanupStats` or the reported totals from the unknown names — while the
abort-on-unknown-category behaviour lives in the CLI wrapper `main`, which
exits with a usage error before `run_cleanup` ever runs. -/
theorem run_cleanup_skips_unknown (w : World) (prot : List String)
    (cps : List (String × List String)) (cats : List String)
    (dry_run backup interactive : Bool) :
    run_cleanup w prot cps cats dry_run backup interactive =
      run_cleanup w prot cps (cats.filter (fun c => (cps.lookup c).isSome))
        dry_run backup interactive ∧
    (∀ cats' : List String, cats' ≠ [] → validateCategories cps cats' = false →
      mainRun w prot cps cats' dry_run backup interactive = .usageError) := by
  constructor
  · exact foldlM_cleanupStep_filter prot cps dry_run backup interactive cats (w, 0, 0)
  · intro cats' hne hval
    have he : cats'.isEmpty = false := by
      simpa [List.isEmpty_iff] using hne
    simp [mainRun, he, hval]

/-- Witness for C10: with only `logs` configured, `run_cleanup` treats
`["bogus", "logs"]` exactly as `["logs"]`, and `main` rejects `["bogus"]`
before running. -/
theorem run_cleanup_skips_unknown_witness :
    run_cleanup w6cb [] [("logs", ["*.log"])] ["bogus", "logs"] true false false =
      run_cleanup w6cb [] [("logs", ["*.log"])]
        ((["bogus", "logs"]).filter
          (fun c => (([("logs", ["*.log"])]).lookup c).isSome)) true false false ∧
      mainRun w6cb [] [("logs", ["*.log"])] ["bogus"] true false false = .usageError :=
  ⟨(run_cleanup_skips_unknown w6cb [] [("logs", ["*.log"])] ["bogus", "logs"]
      true false false).1,
   (run_cleanup_skips_unknown w6cb [] [("logs", ["*.log"])] ["bogus", "logs"]
      true false false).2 ["bogus"] (by decide) (by decide)⟩

/-! ## C7: one failing deletion never blocks the rest -/

theorem find?_backup_file (fs : FS) (p : List String) (d ts : String) :
    FS.find? (backup_file fs p [d, ts]) p = FS.find? fs p := by
  unfold backup_file FS.find?
  rw [List.find?_append]
  cases hf : List.find? (fun e => e.1 == p) fs with
  | some e => rfl
  | none =>
    have hcopies : List.find? (fun e => e.1 == p)
        ((fs.filter (fun e => leads p e.1)).map
          (fun e => ([d, ts] ++ e.1, e.2))) = none := by
      rw [List.find?_eq_none]
      intro x hx
      simp only [List.mem_map, List.mem_filter] at hx
      obtain ⟨e, ⟨-, hlead⟩, rfl⟩ := hx
      simp only [beq_iff_eq]
      intro hEq
      have hle : p.length ≤ e.1.length := ((leads_iff _ _).mp hlead).length_le
      have hlen : ([d, ts] ++ e.1).length = p.length := by rw [hEq]
      simp only [List.length_append, List.length_cons, List.length_nil] at hlen
      omega
    rw [hcopies]
    rfl

theorem backupStep_stats (w : World) (p : List String) (b : Bool) :
    (backupStep w p b).stats = w.stats := by
  unfold backupStep
  split <;> rfl

theorem backupStep_failDelete (w : World) (p : List String) (b : Bool) :
    (backupStep w p b).failDelete = w.failDelete := by
  unfold backupStep
  split <;> rfl

theorem backupStep_find? (w : World) (p : List String) (b : Bool) :
    FS.find? (backupStep w p b).fs p = FS.find? w.fs p := by
  unfold backupStep
  split
  · exact find?_backup_file w.fs p w.cfgBackupDir (w.clock.headD "")
  · rfl

theorem backupStep_isFile (w : World) (p : List String) (b : Bool) :
    isFile (backupStep w p b).fs p = isFile w.fs p := by
  unfold isFile
  rw [backupStep_find?]

theorem backupStep_isDir (w : World) (p : List String) (b : Bool) :
    isDir (backupStep w p b).fs p = isDir w.fs p := by
  unfold isDir
  rw [backupStep_find?]

theorem deleteCore_error_stats (v : World) (f : List String) (e : PyErr)
    (h : (deleteCore v f).2 = some e) : (deleteCore v f).1.stats = v.stats := by
  unfold deleteCore at h ⊢
  cases hg : get_file_size v.fs f with
  | error e' => simp [hg]
  | ok sz =>
    simp only [hg] at h ⊢
    by_cases h1 : isFile v.fs f = true
    · simp only [h1, if_true] at h ⊢
      by_cases h2 : f ∈ v.failDelete
      · simp [h2]
      · simp [h2] at h
    · simp only [h1, Bool.false_eq_true, if_false] at h ⊢
      by_cases h3 : isDir v.fs f = true
      · simp only [h3, if_true] at h ⊢
        by_cases h2 : f ∈ v.failDelete
        · simp [h2]
        · simp [h2] at h
      · simp only [h3, Bool.false_eq_true, if_false] at h
        simp at h

theorem deleteCore_none_counts (v : World) (f : List String)
    (h : (deleteCore v f).2 = none) :
    (deleteCore v f).1.stats.files_deleted + (deleteCore v f).1.stats.dirs_deleted =
      v.stats.files_deleted + v.stats.dirs_deleted +
        (if isFile v.fs f || isDir v.fs f then 1 else 0) := by
  unfold deleteCore at h ⊢
  cases hg : get_file_size v.fs f with
  | error e' => simp [hg] at h
  | ok sz =>
    simp only [hg] at h ⊢
    by_cases h1 : isFile v.fs f = true
    · simp only [h1, if_true, Bool.true_or] at h ⊢
      by_cases h2 : f ∈ v.failDelete
      · simp [h2] at h
      · simp [h2]
        omega
    · simp only [h1, Bool.false_eq_true, if_false, Bool.false_or] at h ⊢
      by_cases h3 : isDir v.fs f = true
      · simp only [h3, if_true] at h ⊢
        by_cases h2 : f ∈ v.failDelete
        · simp [h2] at h
        · simp [h2]
          omega
      · simp only [h3, Bool.false_eq_true, if_false]
        simp

/-- C7.  In a proceeding batch, a deletion that raises an OS error at
entry `k` does not stop the loop: the remaining entries are processed
exactly as the loop body dictates, the failed call leaves both deletion
counters untouched, and every successful `delete_path` call bumps
`files_deleted + dirs_deleted` exactly once when the entry existed (and
not at all otherwise). -/
theorem partial_failure_resilience (w : World) (xs ys : List (List String))
    (k : List String) (backup : Bool) (e : PyErr)
    (hfail : (delete_path (runDeletes w xs backup) k backup).2 = some e) :
    runDeletes w (xs ++ k :: ys) backup =
      runDeletes ((delete_path (runDeletes w xs backup) k backup).1) ys backup ∧
    ((delete_path (runDeletes w xs backup) k backup).1).stats.files_deleted =
      (runDeletes w xs backup).stats.files_deleted ∧
    ((delete_path (runDeletes w xs backup) k backup).1).stats.dirs_deleted =
      (runDeletes w xs backup).stats.dirs_deleted ∧
    (∀ (v : World) (f : List String) (b : Bool), (delete_path v f b).2 = none →
      (delete_path v f b).1.stats.files_deleted +
          (delete_path v f b).1.stats.dirs_deleted =
        v.stats.files_deleted + v.stats.dirs_deleted +
          (if isFile v.fs f || isDir v.fs f then 1 else 0)) := by
  refine ⟨?_, ?_, ?_, ?_⟩
  · simp [runDeletes, List.foldl_append]
  · have := deleteCore_error_stats (backupStep (runDeletes w xs backup) k backup) k e
      hfail
    rw [delete_path, this, backupStep_stats]
  · have := deleteCore_error_stats (backupStep (runDeletes w xs backup) k backup) k e
      hfail
    rw [delete_path, this, backupStep_stats]
  · intro v f b hnone
    have hc := deleteCore_none_counts (backupStep v f b) f hnone
    rw [delete_path, hc, backupStep_stats, backupStep_isFile, backupStep_isDir]

/-- Witness for C7: three files `a`, `b`, `c`; deleting `b` fails with an
OS error; the loop still processes `c`, and the failed step left the
counters unchanged. -/
theorem partial_failure_resilience_witness :
    let w7 : World :=
      { fs := [(["a"], .file 1 true), (["b"], .file 2 true), (["c"], .file 4 true)],
        clock := [], inputs := [], failDelete := [["b"]],
        cfgBackupDir := "cleanup_backups", stats := ⟨0, 0, 0⟩ }
    runDeletes w7 [["a"], ["b"], ["c"]] false =
      runDeletes ((delete_path (runDeletes w7 [["a"]] false) ["b"] false).1)
        [["c"]] false :=
  (partial_failure_resilience
    { fs := [(["a"], .file 1 true), (["b"], .file 2 true), (["c"], .file 4 true)],
      clock := [], inputs := [], failDelete := [["b"]],
      cfgBackupDir := "cleanup_backups", stats := ⟨0, 0, 0⟩ }
    [["a"]] [["c"]] ["b"] false .osError (by decide)).1

/-! ## C3: the Executor re-measures sizes at deletion time

`delete_path` receives no snapshot size: line 147 recomputes
`get_file_size` at deletion time.  When one matched entry is nested inside
another matched entry, the snapshot double-counts the nested entry while
the executor frees it only once, so `bytesFreed` can differ from the
reported snapshot even though every deletion runs to completion without
an error. -/

theorem find?_filter_key (fs : FS) (g : List String → Bool) (p : List String)
    (hg : g p = true) :
    List.find? (fun e => e.1 == p) (fs.filter (fun e => g e.1)) =
      List.find? (fun e => e.1 == p) fs := by
  induction fs with
  | nil => rfl
  | cons e rest ih =>
    rw [List.filter_cons]
    by_cases hge : g e.1 = true
    · simp only [hge, if_true]
      by_cases hep : (e.1 == p) = true
      · simp only [List.find?_cons, hep]
      · simp only [List.find?_cons, Bool.not_eq_true] at hep ⊢
        simp only [hep]
        exact ih
    · simp only [hge, Bool.false_eq_true, if_false]
      have hep : (e.1 == p) = false := by
        rw [beq_eq_false_iff_ne]
        intro hEq
        rw [hEq] at hge
        exact hge hg
      simp only [List.find?_cons, hep]
      exact ih

theorem FS.find?_filter (fs : FS) (g : List String → Bool) (p : List String)
    (hg : g p = true) :
    FS.find? (fs.filter (fun e => g e.1)) p = FS.find? fs p := by
  unfold FS.find?
  rw [find?_filter_key fs g p hg]

theorem subtreeItems_filter (fs : FS) (g : List String → Bool) (p : List String)
    (hsub : ∀ e ∈ fs, leads p e.1 = true → g e.1 = true) :
    subtreeItems (fs.filter (fun e => g e.1)) p = subtreeItems fs p := by
  unfold subtreeItems
  rw [List.filter_filter]
  apply List.filter_congr
  intro e he
  by_cases hl : leads p e.1 = true
  · have := hsub e he hl
    simp [hl, this]
  · simp [hl]

theorem get_file_size_filter (fs : FS) (g : List String → Bool) (p : List String)
    (hg : g p = true) (hsub : ∀ e ∈ fs, leads p e.1 = true → g e.1 = true) :
    get_file_size (fs.filter (fun e => g e.1)) p = get_file_size fs p := by
  unfold get_file_size
  rw [FS.find?_filter fs g p hg, subtreeItems_filter fs g p hsub]

theorem leads_true_iff (a b : List String) : leads a b = true ↔ a <+: b :=
  leads_iff a b

theorem leads_false_of_not (a b : List String) (h : ¬ a <+: b) :
    leads a b = false := by
  rw [← Bool.not_eq_true, leads_iff]
  exact h

theorem find?_removeEntry (fs : FS) (f g : List String) (hne : g ≠ f) :
    FS.find? (removeEntry fs f) g = FS.find? fs g := by
  unfold removeEntry
  exact FS.find?_filter fs (fun q => q != f) g (by simpa using hne)

theorem find?_removeTree (fs : FS) (f g : List String) (hfg : ¬ f <+: g) :
    FS.find? (removeTree fs f) g = FS.find? fs g := by
  unfold removeTree
  exact FS.find?_filter fs (fun q => !leads f q) g
    (by simp [leads_false_of_not f g hfg])

theorem get_file_size_removeEntry (fs : FS) (f g : List String)
    (_hfg : ¬ f <+: g) (hgf : ¬ g <+: f) :
    get_file_size (removeEntry fs f) g = get_file_size fs g := by
  unfold removeEntry
  apply get_file_size_filter fs (fun q => q != f) g
  · simp only [bne_iff_ne, ne_eq, decide_eq_true_eq]
    intro hEq
    exact hgf (hEq ▸ List.prefix_refl f)
  · intro e _ hl
    simp only [bne_iff_ne, ne_eq, decide_eq_true_eq]
    intro hEq
    rw [hEq] at hl
    exact hgf ((leads_iff _ _).mp hl)

theorem get_file_size_removeTree (fs : FS) (f g : List String)
    (hfg : ¬ f <+: g) (hgf : ¬ g <+: f) :
    get_file_size (removeTree fs f) g = get_file_size fs g := by
  unfold removeTree
  apply get_file_size_filter fs (fun q => !leads f q) g
  · simp [leads_false_of_not f g hfg]
  · intro e _ hl
    simp only [Bool.not_eq_true']
    apply leads_false_of_not
    intro hfe
    rcases List.prefix_or_prefix_of_prefix hfe ((leads_iff _ _).mp hl) with h | h
    · exact hfg h
    · exact hgf h

theorem map_ok_eq {ε α β : Type} (f : α → β) (a : α) :
    (Except.ok a : Except ε α).map f = .ok (f a) := rfl

theorem map_error_eq {ε α β : Type} (f : α → β) (e : ε) :
    (Except.error e : Except ε α).map f = .error e := rfl

theorem bind_ok_eq {ε α β : Type} (a : α) (k : α → Except ε β) :
    (Except.ok a : Except ε α) >>= k = k a := rfl

theorem bind_error_eq {ε α β : Type} (e : ε) (k : α → Except ε β) :
    (Except.error e : Except ε α) >>= k = .error e := rfl

theorem sumSizes_shift (fs : FS) (files : List (List String)) :
    ∀ acc : Nat,
      files.foldlM (fun acc f => (get_file_size fs f).map (fun s => acc + s)) acc =
        (sumSizes fs files).map (fun t => acc + t) := by
  induction files with
  | nil =>
    intro acc
    unfold sumSizes
    rw [List.foldlM_nil, List.foldlM_nil]
    show (Except.ok acc : Except PyErr Nat) =
      (Except.ok (0 : Nat) : Except PyErr Nat).map (fun t => acc + t)
    rw [map_ok_eq]
    simp
  | cons f rest ih =>
    intro acc
    rw [List.foldlM_cons]
    unfold sumSizes
    rw [List.foldlM_cons]
    cases hg : get_file_size fs f with
    | error e =>
      rw [map_error_eq, bind_error_eq, map_error_eq, bind_error_eq, map_error_eq]
    | ok s =>
      rw [map_ok_eq, bind_ok_eq, map_ok_eq, bind_ok_eq]
      rw [ih (acc + s), ih (0 + s)]
      cases hrest : sumSizes fs rest with
      | error e => rw [map_error_eq, map_error_eq, map_error_eq]
      | ok t =>
        rw [map_ok_eq, map_ok_eq, map_ok_eq, Except.ok.injEq]
        omega

theorem sumSizes_cons_inv (fs : FS) (f : List String) (rest : List (List String))
    (total : Nat) (h : sumSizes fs (f :: rest) = .ok total) :
    ∃ s t, get_file_size fs f = .ok s ∧ sumSizes fs rest = .ok t ∧ total = s + t := by
  unfold sumSizes at h
  rw [List.foldlM_cons] at h
  cases hg : get_file_size fs f with
  | error e =>
    rw [hg, map_error_eq, bind_error_eq] at h
    exact absurd h (by simp)
  | ok s =>
    rw [hg, map_ok_eq, bind_ok_eq] at h
    rw [sumSizes_shift fs rest (0 + s)] at h
    cases ht : sumSizes fs rest with
    | error e =>
      rw [ht, map_error_eq] at h
      exact absurd h (by simp)
    | ok t =>
      rw [ht, map_ok_eq, Except.ok.injEq] at h
      exact ⟨s, t, rfl, rfl, by omega⟩

theorem sumSizes_congr (fs fs' : FS) (files : List (List String))
    (h : ∀ f ∈ files, get_file_size fs' f = get_file_size fs f) :
    sumSizes fs' files = sumSizes fs files := by
  unfold sumSizes
  induction files with
  | nil => rfl
  | cons f rest ih =>
    rw [List.foldlM_cons, List.foldlM_cons]
    rw [h f (List.mem_cons_self f rest)]
    cases get_file_size fs f with
    | error e => rw [map_error_eq, bind_error_eq, bind_error_eq]
    | ok s =>
      rw [map_ok_eq, bind_ok_eq, bind_ok_eq]
      rw [sumSizes_shift fs' rest (0 + s), sumSizes_shift fs rest (0 + s)]
      rw [show sumSizes fs' rest = sumSizes fs rest from
        ih (fun g hg => h g (List.mem_cons_of_mem f hg))]

theorem backupStep_false (w : World) (p : List String) :
    backupStep w p false = w := rfl

theorem delete_path_file_succ (w : World) (f : List String) (s : Nat)
    (h1 : isFile w.fs f = true) (h2 : f ∉ w.failDelete)
    (hg : get_file_size w.fs f = .ok s) :
    delete_path w f false =
      ({ w with fs := removeEntry w.fs f,
                stats := { w.stats with
                  files_deleted := w.stats.files_deleted + 1,
                  space_freed := w.stats.space_freed + s } }, none) := by
  rw [delete_path, backupStep_false]
  unfold deleteCore
  rw [hg]
  simp only [h1, if_true]
  rw [if_neg h2]

theorem delete_path_dir_succ (w : World) (f : List String) (s : Nat)
    (h1 : isFile w.fs f = false) (h1' : isDir w.fs f = true) (h2 : f ∉ w.failDelete)
    (hg : get_file_size w.fs f = .ok s) :
    delete_path w f false =
      ({ w with fs := removeTree w.fs f,
                stats := { w.stats with
                  dirs_deleted := w.stats.dirs_deleted + 1,
                  space_freed := w.stats.space_freed + s } }, none) := by
  rw [delete_path, backupStep_false]
  unfold deleteCore
  rw [hg]
  simp only [h1, Bool.false_eq_true, if_false, h1', if_true]
  rw [if_neg h2]

theorem isFile_false_of_isDir (fs : FS) (p : List String)
    (h : isDir fs p = true) : isFile fs p = false := by
  unfold isFile
  unfold isDir at h
  cases hfp : FS.find? fs p with
  | none =>
    rw [hfp] at h
  | some ent =>
    rw [hfp] at h
    cases ent with
    | file n ok => exact Bool.noConfusion h
    | dir => rfl

theorem runDeletes_space (files : List (List String)) :
    ∀ (w : World) (total : Nat),
      List.Pairwise (fun p q => ¬ p <+: q ∧ ¬ q <+: p) files →
      (∀ f ∈ files, (isFile w.fs f || isDir w.fs f) = true ∧ f ∉ w.failDelete ∧
        (get_file_size w.fs f).isOk = true) →
      sumSizes w.fs files = .ok total →
      (runDeletes w files false).stats.space_freed = w.stats.space_freed + total := by
  induction files with
  | nil =>
    intro w total _ _ hsum
    unfold sumSizes at hsum
    rw [List.foldlM_nil] at hsum
    rw [show (pure 0 : Except PyErr Nat) = Except.ok 0 from rfl,
      Except.ok.injEq] at hsum
    show w.stats.space_freed = w.stats.space_freed + total
    omega
  | cons f rest ih =>
    intro w total hpw hok hsum
    obtain ⟨s, t, hgs, hrest, htot⟩ := sumSizes_cons_inv w.fs f rest total hsum
    obtain ⟨hex, hnf, -⟩ := hok f (List.mem_cons_self f rest)
    have hinc : ∀ g ∈ rest, ¬ f <+: g ∧ ¬ g <+: f := (List.pairwise_cons.mp hpw).1
    have hpw' := (List.pairwise_cons.mp hpw).2
    rcases (by simpa using hex : isFile w.fs f = true ∨ isDir w.fs f = true)
      with hf | hd
    · have hdp := delete_path_file_succ w f s hf hnf hgs
      have hpres : ∀ g ∈ rest,
          get_file_size (removeEntry w.fs f) g = get_file_size w.fs g :=
        fun g hg => get_file_size_removeEntry w.fs f g (hinc g hg).1 (hinc g hg).2
      have hfind : ∀ g ∈ rest,
          FS.find? (removeEntry w.fs f) g = FS.find? w.fs g := by
        intro g hg
        apply find?_removeEntry
        intro hEq
        exact (hinc g hg).2 (by rw [hEq])
      have h_fs : (delete_path w f false).1.fs = removeEntry w.fs f := by rw [hdp]
      have h_fd : (delete_path w f false).1.failDelete = w.failDelete := by rw [hdp]
      have h_sp : (delete_path w f false).1.stats.space_freed =
          w.stats.space_freed + s := by rw [hdp]
      have hih := ih (delete_path w f false).1 t hpw' ?_ ?_
      · show (runDeletes (delete_path w f false).1 rest false).stats.space_freed =
          w.stats.space_freed + total
        rw [hih, h_sp]
        omega
      · intro g hg
        have horig := hok g (List.mem_cons_of_mem f hg)
        rw [h_fs, h_fd]
        refine ⟨?_, horig.2.1, ?_⟩
        · unfold isFile isDir
          rw [hfind g hg]
          exact horig.1
        · rw [hpres g hg]
          exact horig.2.2
      · rw [h_fs, sumSizes_congr w.fs (removeEntry w.fs f) rest hpres]
        exact hrest
    · have hf0 : isFile w.fs f = false := isFile_false_of_isDir w.fs f hd
      have hdp := delete_path_dir_succ w f s hf0 hd hnf hgs
      have hpres : ∀ g ∈ rest,
          get_file_size (removeTree w.fs f) g = get_file_size w.fs g :=
        fun g hg => get_file_size_removeTree w.fs f g (hinc g hg).1 (hinc g hg).2
      have hfind : ∀ g ∈ rest,
          FS.find? (removeTree w.fs f) g = FS.find? w.fs g :=
        fun g hg => find?_removeTree w.fs f g (hinc g hg).1
      have h_fs : (delete_path w f false).1.fs = removeTree w.fs f := by rw [hdp]
      have h_fd : (delete_path w f false).1.failDelete = w.failDelete := by rw [hdp]
      have h_sp : (delete_path w f false).1.stats.space_freed =
          w.stats.space_freed + s := by rw [hdp]
      have hih := ih (delete_path w f false).1 t hpw' ?_ ?_
      · show (runDeletes (delete_path w f false).1 rest false).stats.space_freed =
          w.stats.space_freed + total
        rw [hih, h_sp]
        omega
      · intro g hg
        have horig := hok g (List.mem_cons_of_mem f hg)
        rw [h_fs, h_fd]
        refine ⟨?_, horig.2.1, ?_⟩
        · unfold isFile isDir
          rw [hfind g hg]
          exact horig.1
        · rw [hpres g hg]
          exact horig.2.2
      · rw [h_fs, sumSizes_congr w.fs (removeTree w.fs f) rest hpres]
        exact hrest

def w3cex : World :=
  { fs := [(["build"], .dir), (["build", "a.pyc"], .file 10 true)],
    clock := [], inputs := [], failDelete := [], cfgBackupDir := "cleanup_backups",
    stats := ⟨0, 0, 0⟩ }

/-- C3 counterexample.  Category patterns `["build/", "*.pyc"]` match both
the directory `build` (10 bytes of content) and the file `build/a.pyc`
(those same 10 bytes).  The Planner's snapshot double-counts: reported
size 20.  The batch then runs to completion without any OS error and
leaves the filesystem empty — every matched entry is gone — yet only 10
bytes reach `space_freed`, because `delete_path` re-measures each entry at
deletion time (the file, deleted together with the directory, re-measures
as a non-existent path of size 0); `bytesFreed` (10) ≠ `reportedSize`
(20). -/
theorem executor_remeasures_cex :
    (clean_category w3cex [] ["build/", "*.pyc"] false false false).map
        (fun r => (r.1.fs, r.1.stats, r.2.2)) =
      .ok ([], ⟨0, 1, 10⟩, 20) ∧ (10 : Nat) ≠ 20 := by
  refine ⟨by decide, by decide⟩

/-- C3 amended.  The Executor re-measures each entry's size at deletion
time (`delete_path` receives no snapshot).  The amount it adds to
`bytesFreed` for a fully successful non-interactive, non-backup batch
equals the Planner's pre-deletion snapshot PROVIDED the matched entries
are pairwise non-nested (no entry is a path prefix of another), each
exists, none is refused deletion, and none fails to stat; nested matched
entries (a matched file inside a matched directory) break the equality
even though every deletion completes without error. -/
theorem executor_remeasures_amended (w : World) (prot patterns : List String)
    (w' : World) (files : List (List String)) (total : Nat)
    (h : clean_category w prot patterns false false false = .ok (w', files, total))
    (hpw : List.Pairwise (fun p q => ¬ p <+: q ∧ ¬ q <+: p) files)
    (hok : ∀ f ∈ files, (isFile w.fs f || isDir w.fs f) = true ∧ f ∉ w.failDelete ∧
      (get_file_size w.fs f).isOk = true) :
    w'.stats.space_freed = w.stats.space_freed + total := by
  cases htot : sumSizes w.fs (find_files w.fs prot patterns) with
  | error e => simp [clean_category, htot] at h
  | ok t =>
    simp only [clean_category, htot] at h
    split at h
    · rename_i he
      rw [List.isEmpty_iff] at he
      rw [he] at htot
      unfold sumSizes at htot
      rw [List.foldlM_nil] at htot
      rw [show (pure 0 : Except PyErr Nat) = Except.ok 0 from rfl,
        Except.ok.injEq] at htot
      simp only [Except.ok.injEq, Prod.mk.injEq] at h
      obtain ⟨h1, -, h3⟩ := h
      rw [← h1, ← h3, ← htot]
      omega
    · simp only [Bool.false_eq_true, if_false] at h
      simp only [Except.ok.injEq, Prod.mk.injEq] at h
      obtain ⟨h1, h2, h3⟩ := h
      rw [← h2] at hpw hok
      rw [← h1, ← h3]
      exact runDeletes_space _ w t hpw hok htot

def w9cex : World :=
  { fs := [(["a.log"], .file 3 true), (["b.log"], .file 4 true)],
    clock := [], inputs := [], failDelete := [], cfgBackupDir := "cleanup_backups",
    stats := ⟨0, 0, 0⟩ }

def w9res : World :=
  { fs := [], clock := [], inputs := [], failDelete := [],
    cfgBackupDir := "cleanup_backups", stats := ⟨2, 0, 7⟩ }

/-- Witness for C3 amended: two disjoint files of 3 and 4 bytes; the
batch frees exactly the 7-byte snapshot. -/
theorem executor_remeasures_amended_witness :
    w9res.stats.space_freed = w9cex.stats.space_freed + 7 :=
  executor_remeasures_amended w9cex [] ["*.log"] w9res [["a.log"], ["b.log"]] 7
    (by decide) (by decide) (by decide)
